import Mathlib

/-!
# Connection diagnostic resource (`api/types/connection_diagnostic.go`)

A shallow embedding of the `ConnectionDiagnosticV1` resource of package `types`
and proofs of its contract.

Modelling conventions

* A Go `map[string]string` is a `GoMap`: either the nil map or an allocated map,
  given by its entries in one enumeration order with pairwise distinct keys.
  Reading a nil map yields the zero value, writing to it is a run-time panic.
* Methods with a pointer receiver that assign to the receiver take the resource
  and return the updated resource.  A method that can panic returns an `Option`,
  `none` standing for the panic.
* A Go result pair `(*T, error)` is a pair of options, `none` standing for `nil`.
* The resource owns its label mapping (value semantics); aliasing of the map
  between the resource and its callers is not represented.  Only the section on
  maps held by reference keeps the label map at an address in a heap, to state
  what a call of `GetAllLabels` leaves behind.
* The case table of the shared search matcher is a parameter `lower`.
-/

namespace Teleport

/-! ## Go maps with string keys and string values -/

/-- An allocated Go map: its entries in one enumeration order, keys pairwise distinct. -/
structure StringMap where
  entries : List (String × String)
  nodupKeys : (entries.map Prod.fst).Nodup

namespace StringMap

/-- The map made by `make(map[string]string)`. -/
def empty : StringMap := ⟨[], List.nodup_nil⟩

/-- The comma-ok read `v, ok := m[k]`. -/
def lookup (m : StringMap) (k : String) : Option String :=
  m.entries.lookup k

/-- Entries of `l` whose key is not `k`. -/
def eraseKey (k : String) (l : List (String × String)) : List (String × String) :=
  l.filter (fun e => e.1 != k)

/-- The assignment `m[k] = v` on an allocated map. -/
def store (m : StringMap) (k v : String) : StringMap :=
  ⟨(k, v) :: eraseKey k m.entries,
   by
     rw [List.map_cons, List.nodup_cons]
     constructor
     · intro h
       obtain ⟨e, he, hk⟩ := List.mem_map.1 h
       have h2 := (List.mem_filter.1 he).2
       simp [hk] at h2
     · exact ((List.filter_sublist m.entries).map Prod.fst).nodup m.nodupKeys⟩

/-- The loop `for key, value := range src { dst[key] = value }` on an allocated `dst`. -/
def storeAll (dst : StringMap) (src : List (String × String)) : StringMap :=
  src.foldl (fun acc e => acc.store e.1 e.2) dst

end StringMap

/-- A Go value of type `map[string]string`. -/
inductive GoMap where
  | nil : GoMap
  | alloc : StringMap → GoMap

namespace GoMap

/-- The entries visited by `for key, value := range m`; none for the nil map. -/
def entries : GoMap → List (String × String)
  | nil => []
  | alloc m => m.entries

/-- The comma-ok read `v, ok := m[k]`; a nil map has no key. -/
def lookup : GoMap → String → Option String
  | nil, _ => none
  | alloc m, k => m.lookup k

/-- The read `m[k]`: the zero value `""` when the key is absent or the map is nil. -/
def index (m : GoMap) (k : String) : String :=
  (m.lookup k).getD ""

/-- The assignment `m[k] = v`; `none` is the panic "assignment to entry in nil map". -/
def assign : GoMap → String → String → Option GoMap
  | nil, _, _ => none
  | alloc m, k, v => some (alloc (m.store k v))

end GoMap

/-! ## Errors of the `trace` library -/

namespace trace

/-- Error classes of the external library `github.com/gravitational/trace`. -/
inductive ErrorClass where
  | BadParameter
  | NotFound
  | AlreadyExists
  | AccessDenied
  | Other
  deriving DecidableEq, Repr

/-- An error value of the `trace` library: its class and its message. -/
structure Error where
  cls : ErrorClass
  message : String
  deriving DecidableEq, Repr

/-- The error made by `trace.BadParameter(message)`. -/
def BadParameter (message : String) : Error :=
  { cls := ErrorClass.BadParameter, message := message }

/-- The call `trace.Wrap(err)` on a non-nil error that already is a `trace` error and with no
further arguments: the error is returned as it is, class and message kept. -/
def Wrap (err : Error) : Error := err

/-- The test `trace.IsBadParameter(err)`. -/
def IsBadParameter (err : Error) : Bool :=
  err.cls == ErrorClass.BadParameter

end trace

/-! ## Constants and types declared in other files of package `types` -/

/-- Modelled from the spec: the constant `V1` ("version = V1") is declared in another file of
the package; the spec names it without giving the string, and the theorems below hold
whatever the string is. -/
def V1 : String := "v1"

/-- Modelled from the spec: the constant `KindConnectionDiagnostic`
("kind = "connection_diagnostic"") is declared in another file of the package. -/
def KindConnectionDiagnostic : String := "connection_diagnostic"

/-- Modelled from the spec: the constant `OriginLabel` (the "reserved origin key") is declared
in another file of the package; the spec does not give the string, and the theorems below
hold whatever the string is. -/
def OriginLabel : String := "teleport.dev/origin"

/-- Modelled from the spec: the type `Metadata` is declared in another file of the package;
these are the fields the spec lists and the code uses (`metadata.name`, `metadata.labels`). -/
structure Metadata where
  Name : String
  Labels : GoMap

/-- Modelled from the spec: the type `ResourceHeader` is declared in another file of the
package; these are the fields the spec lists and the code uses. -/
structure ResourceHeader where
  Kind : String
  Version : String
  Metadata : Metadata

/-- Modelled from the spec: the type `ConnectionDiagnosticSpecV1` is declared in another file
of the package; the payload is the success flag and the message. -/
structure ConnectionDiagnosticSpecV1 where
  Success : Bool
  Message : String

/-- Modelled from the spec: the type `ConnectionDiagnosticV1` is declared in another file of
the package; it embeds the resource header and carries the spec payload. -/
structure ConnectionDiagnosticV1 where
  ResourceHeader : ResourceHeader
  Spec : ConnectionDiagnosticSpecV1

/-- Modelled from the spec: `GetName` is a method of the embedded resource header, declared in
another file of the package; it returns the resource's `metadata.name`. -/
def ConnectionDiagnosticV1.GetName (c : ConnectionDiagnosticV1) : String :=
  c.ResourceHeader.Metadata.Name

/-- Modelled from the spec: `CombineLabels` is declared in another file of the package. It
"returns the union of static labels and dynamic (computed) labels", the dynamic labels
"merged over static labels"; an absent mapping counts as empty.  The dynamic labels are
given as the mapping from each key to its computed value. -/
def CombineLabels (static dynamic : GoMap) : GoMap :=
  GoMap.alloc ((StringMap.empty.storeAll static.entries).storeAll dynamic.entries)

/-! ## The shared search matcher -/

/-- Case folding of a string with the case table `lower`: its characters, each mapped by the
table.  The table that says which character is the lower case of which belongs to the Go
runtime and to the shared matcher, not to this file: it is a parameter of the matcher and
of everything that calls it. -/
def foldCase (lower : Char → Char) (s : String) : List Char :=
  s.toList.map lower

/-- Whether `sub` occurs in `s` as a contiguous block. -/
def hasInfix : List Char → List Char → Bool
  | [], sub => sub.isEmpty
  | c :: cs, sub => sub.isPrefixOf (c :: cs) || hasInfix cs sub

/-- Modelled from the spec: the match of one search term against one field value, done by the
shared matcher, which is declared in another file of the package: a "case-insensitive
substring match", for the case table `lower`. -/
def containsFold (lower : Char → Char) (s substr : String) : Bool :=
  hasInfix (foldCase lower s) (foldCase lower substr)

/-- Modelled from the spec: the shared matcher `MatchSearch(fieldVals, searchVals, customMatch)`
is declared in another file of the package.  It "returns true iff every term in
`searchTerms` matches ... at least one candidate value".  The spec says nothing of the third
argument, which the resource passes as nil; a custom matcher, when given, is taken to accept
further terms.  The case table `lower` is the one of `containsFold`. -/
def MatchSearch (lower : Char → Char) (fieldVals searchVals : List String)
    (customMatch : Option (String → Bool)) : Bool :=
  match searchVals with
  | [] => true
  | searchV :: rest =>
    if fieldVals.any (fun fieldV => containsFold lower fieldV searchV) then
      MatchSearch lower fieldVals rest customMatch
    else
      match customMatch with
      | some f => if f searchV then MatchSearch lower fieldVals rest customMatch else false
      | none => false

namespace utils

/-- Modelled from the spec: `utils.MapToStrings` is declared in package `api/utils`.  The
candidate list holds "every value from `getAllLabels()`", in the order the map enumerates its
entries. -/
def MapToStrings (m : GoMap) : List String :=
  m.entries.map Prod.snd

end utils

/-! ## `connection_diagnostic.go` -/

namespace ConnectionDiagnosticV1

/-- `CheckAndSetDefaults`: the returned error, `none` for `nil`.  The body assigns nothing
to the receiver. -/
def CheckAndSetDefaults (c : ConnectionDiagnosticV1) : Option trace.Error :=
  if c.Spec.Message = "" then
    some (trace.BadParameter "ConnectionDiagnosticV1.Spec missing Message field")
  else
    none

/-- `GetAllLabels` returns combined static and dynamic labels. -/
def GetAllLabels (c : ConnectionDiagnosticV1) : GoMap :=
  CombineLabels c.ResourceHeader.Metadata.Labels GoMap.nil

/-- `GetStaticLabels` returns the connection diagnostic static labels. -/
def GetStaticLabels (c : ConnectionDiagnosticV1) : GoMap :=
  c.ResourceHeader.Metadata.Labels

/-- `IsSuccess` returns whether the connection was successful. -/
def IsSuccess (c : ConnectionDiagnosticV1) : Bool :=
  c.Spec.Success

/-- `GetMessage` returns the connection diagnostic message. -/
def GetMessage (c : ConnectionDiagnosticV1) : String :=
  c.Spec.Message

/-- `MatchSearch` goes through select field values and tries to match against the list of
search values.  The case table `lower` of the shared matcher is passed along. -/
def MatchSearch (c : ConnectionDiagnosticV1) (lower : Char → Char) (values : List String) :
    Bool :=
  let fieldVals := utils.MapToStrings c.GetAllLabels ++ [c.GetName]
  Teleport.MatchSearch lower fieldVals values none

/-- `Origin` returns the origin value of the resource. -/
def Origin (c : ConnectionDiagnosticV1) : String :=
  c.ResourceHeader.Metadata.Labels.index OriginLabel

/-- `SetOrigin` sets the origin value of the resource; `none` when the assignment panics. -/
def SetOrigin (c : ConnectionDiagnosticV1) (o : String) : Option ConnectionDiagnosticV1 :=
  match c.ResourceHeader.Metadata.Labels.assign OriginLabel o with
  | none => none
  | some labels =>
    some { c with ResourceHeader :=
      { c.ResourceHeader with Metadata := { c.ResourceHeader.Metadata with Labels := labels } } }

/-- `SetStaticLabels` sets the connection diagnostic static labels. -/
def SetStaticLabels (c : ConnectionDiagnosticV1) (sl : GoMap) : ConnectionDiagnosticV1 :=
  { c with ResourceHeader :=
    { c.ResourceHeader with Metadata := { c.ResourceHeader.Metadata with Labels := sl } } }

end ConnectionDiagnosticV1

/-- `NewConnectionDiagnosticV1` creates a new `ConnectionDiagnosticV1` resource: the pair of
the resource pointer and the error, `none` for `nil`. -/
def NewConnectionDiagnosticV1 (name : String) (labels : GoMap)
    (spec : ConnectionDiagnosticSpecV1) :
    Option ConnectionDiagnosticV1 × Option trace.Error :=
  let c : ConnectionDiagnosticV1 :=
    { ResourceHeader :=
        { Version := V1
          Kind := KindConnectionDiagnostic
          Metadata := { Name := name, Labels := labels } }
      Spec := spec }
  match c.CheckAndSetDefaults with
  | some err => (none, some (trace.Wrap err))
  | none => (some c, none)

/-! ## Notions of the specification -/

/-- Two characters are the same letter up to case, for the case table `lower`: the table
gives both the same lower case. -/
def SameLetter (lower : Char → Char) (a b : Char) : Prop :=
  lower a = lower b

/-- The search term `term` is a case-insensitive substring of the field value `value`: the
value is some prefix, then a block, then some suffix, and the block spells the term letter
by letter up to case. -/
def IsSubstringFold (lower : Char → Char) (term value : String) : Prop :=
  ∃ pre mid suf : List Char,
    value.toList = pre ++ mid ++ suf ∧ List.Forall₂ (SameLetter lower) mid term.toList

/-- A case table beyond ASCII: it lowers the capital letters of ASCII and of Latin-1
(`À` to `Þ`, the sign `×` apart) and leaves every other character as it is. -/
def latin1Lower (c : Char) : Char :=
  if (65 ≤ c.toNat ∧ c.toNat ≤ 90) ∨ (192 ≤ c.toNat ∧ c.toNat ≤ 222 ∧ c.toNat ≠ 215) then
    Char.ofNat (c.toNat + 32)
  else
    c

/-- The case table that lowers nothing: with it the match is case-sensitive. -/
def noLower (c : Char) : Char := c

/-- The static labels of the running example: `{"env": "prod"}`. -/
def envProd : GoMap :=
  GoMap.alloc ⟨[("env", "prod")], by simp⟩

/-- The resource of the running example: name `"diag-1"`, labels `{"env": "prod"}`, spec
`{success: true, message: "connected"}`. -/
def diag1 : ConnectionDiagnosticV1 :=
  { ResourceHeader :=
      { Version := V1
        Kind := KindConnectionDiagnostic
        Metadata := { Name := "diag-1", Labels := envProd } }
    Spec := { Success := true, Message := "connected" } }

/-- A resource named `"É"`, with no labels. -/
def diagE : ConnectionDiagnosticV1 :=
  { ResourceHeader :=
      { Version := V1
        Kind := KindConnectionDiagnostic
        Metadata := { Name := "É", Labels := GoMap.alloc StringMap.empty } }
    Spec := { Success := true, Message := "connected" } }

/-- The empty, allocated label mapping. -/
def emptyLabels : GoMap :=
  GoMap.alloc StringMap.empty

/-- A label mapping with an entry under the origin key: `{OriginLabel: "cloud"}`. -/
def originCloud : GoMap :=
  GoMap.alloc ⟨[(OriginLabel, "cloud")], by simp⟩

/-! ## Sequences of mutator calls -/

/-- A call of one of the two public mutators of the resource. -/
inductive Mutator where
  | setStaticLabels (sl : GoMap)
  | setOrigin (o : String)

/-- One mutator call on a resource; `none` when the call panics. -/
def Mutator.apply (c : ConnectionDiagnosticV1) : Mutator → Option ConnectionDiagnosticV1
  | Mutator.setStaticLabels sl => some (c.SetStaticLabels sl)
  | Mutator.setOrigin o => c.SetOrigin o

/-- A sequence of mutator calls performed in order; `none` when one of them panics. -/
def applyMutators (c : ConnectionDiagnosticV1) : List Mutator → Option ConnectionDiagnosticV1
  | [] => some c
  | m :: ms =>
    match m.apply c with
    | none => none
    | some c1 => applyMutators c1 ms

/-! ## Maps held by reference

In Go a map value is a reference: `CombineLabels` receives the label map of the resource
itself, not a copy, and a `range` loop visits the entries in an order that the language
leaves open.  To speak of what a call of `GetAllLabels` leaves behind, this section keeps
the allocated maps in a heap, holds the label map of the resource by its address, and makes
the order of each `range` loop an input. -/

/-- The maps allocated so far; the address of a map is its position in the list. -/
structure Heap where
  maps : List StringMap

/-- A map value as the program holds it: nil, or the address of an allocated map. -/
inductive MapRef where
  | nil : MapRef
  | addr : Nat → MapRef

namespace Heap

/-- The map that a reference stands for; the nil reference stands for the nil map. -/
def deref (h : Heap) : MapRef → GoMap
  | MapRef.nil => GoMap.nil
  | MapRef.addr a =>
    match h.maps[a]? with
    | some m => GoMap.alloc m
    | none => GoMap.nil

/-- The reference is nil or the address of an allocated map. -/
def Valid (h : Heap) : MapRef → Prop
  | MapRef.nil => True
  | MapRef.addr a => a < h.maps.length

/-- The call `make(map[string]string)`: a new, empty map at an address not used so far. -/
def make (h : Heap) : Heap × MapRef :=
  (⟨h.maps ++ [StringMap.empty]⟩, MapRef.addr h.maps.length)

/-- The assignment `m[k] = v` through the reference `m`: the map at that address is
written, no other; `none` is the panic on the nil map. -/
def assign (h : Heap) : MapRef → String → String → Option Heap
  | MapRef.nil, _, _ => none
  | MapRef.addr a, k, v =>
    match h.maps[a]? with
    | some m => some ⟨h.maps.set a (m.store k v)⟩
    | none => none

/-- The loop `for key, value := range src { dst[key] = value }`, the entries of `src` being
visited in the order given. -/
def copyInto (h : Heap) (dst : MapRef) : List (String × String) → Option Heap
  | [] => some h
  | e :: es =>
    match h.assign dst e.1 e.2 with
    | none => none
    | some h1 => copyInto h1 dst es

end Heap

/-- Modelled from the spec: `CombineLabels`, declared in another file of the package, on map
references.  It "returns the union of static labels and dynamic (computed) labels", the
dynamic labels "merged over static labels": a new map is made and the entries of the two
arguments are assigned to it, static first.  `enum` is the order in which a `range` loop
visits the entries it is given. -/
def CombineLabelsRef (enum : List (String × String) → List (String × String)) (h : Heap)
    (static dynamic : MapRef) : Option (Heap × MapRef) :=
  match h.make with
  | (h0, lmap) =>
    match h0.copyInto lmap (enum (h0.deref static).entries) with
    | none => none
    | some h1 =>
      match h1.copyInto lmap (enum (h1.deref dynamic).entries) with
      | none => none
      | some h2 => some (h2, lmap)

/-- The resource as it lies in memory: the fields of the receiver, its label map held by
reference, and the heap of maps. -/
structure ResourceState where
  heap : Heap
  Kind : String
  Version : String
  Name : String
  Labels : MapRef
  Spec : ConnectionDiagnosticSpecV1

namespace ResourceState

/-- The resource value that a state stands for: the label reference is followed. -/
def view (s : ResourceState) : ConnectionDiagnosticV1 :=
  { ResourceHeader :=
      { Version := s.Version
        Kind := s.Kind
        Metadata := { Name := s.Name, Labels := s.heap.deref s.Labels } }
    Spec := s.Spec }

/-- The label reference of the state is nil or the address of an allocated map. -/
def WellFormed (s : ResourceState) : Prop :=
  s.heap.Valid s.Labels

/-- `GetAllLabels` as a step on the memory: `return CombineLabels(c.Metadata.Labels, nil)`.
The state after the call and the returned map reference; `none` if the call panics.  The
body assigns to no field of the receiver; what happens to the heap is what `CombineLabels`
does to it. -/
def GetAllLabels (enum : List (String × String) → List (String × String))
    (s : ResourceState) : Option (ResourceState × MapRef) :=
  match CombineLabelsRef enum s.heap s.Labels MapRef.nil with
  | none => none
  | some (h, r) => some ({ s with heap := h }, r)

end ResourceState

/-- The running example in memory: its label map `{"env": "prod"}` lies at address 0. -/
def diag1State : ResourceState :=
  { heap := ⟨[⟨[("env", "prod")], by simp⟩]⟩
    Kind := KindConnectionDiagnostic
    Version := V1
    Name := "diag-1"
    Labels := MapRef.addr 0
    Spec := { Success := true, Message := "connected" } }

/-- Static labels with two entries: `{"env": "prod", "region": "eu"}`. -/
def envRegion : GoMap :=
  GoMap.alloc ⟨[("env", "prod"), ("region", "eu")], by decide⟩

/-- The same static labels, enumerated in the other order. -/
def regionEnv : GoMap :=
  GoMap.alloc ⟨[("region", "eu"), ("env", "prod")], by decide⟩

/-- A resource named `"diag-2"` with the two static labels of `envRegion`. -/
def diag2 : ConnectionDiagnosticV1 :=
  { ResourceHeader :=
      { Version := V1
        Kind := KindConnectionDiagnostic
        Metadata := { Name := "diag-2", Labels := envRegion } }
    Spec := { Success := false, Message := "timeout" } }

/-! ## Facts about maps and about the matcher -/

theorem lookup_eraseKey_ne (k a : String) (h : a ≠ k) (l : List (String × String)) :
    (StringMap.eraseKey k l).lookup a = l.lookup a := by
  induction l with
  | nil => rfl
  | cons e t ih =>
    obtain ⟨x, y⟩ := e
    by_cases hx : x = k
    · subst hx
      have h1 : StringMap.eraseKey x ((x, y) :: t) = StringMap.eraseKey x t := by
        simp [StringMap.eraseKey]
      have h2 : (a == x) = false := by simpa using h
      rw [h1, ih, List.lookup_cons, h2]
    · have h1 : StringMap.eraseKey k ((x, y) :: t) = (x, y) :: StringMap.eraseKey k t := by
        simp [StringMap.eraseKey, hx]
      rw [h1, List.lookup_cons, List.lookup_cons, ih]

theorem StringMap.lookup_store_self (m : StringMap) (k v : String) :
    (m.store k v).lookup k = some v := by
  simp [StringMap.lookup, StringMap.store, List.lookup_cons]

theorem StringMap.lookup_store_ne (m : StringMap) (k v a : String) (h : a ≠ k) :
    (m.store k v).lookup a = m.lookup a := by
  have h2 : (a == k) = false := by simpa using h
  simp only [StringMap.lookup, StringMap.store, List.lookup_cons, h2]
  exact lookup_eraseKey_ne k a h m.entries

theorem lookup_eq_none_of_not_mem_keys (a : String) (l : List (String × String))
    (h : a ∉ l.map Prod.fst) : l.lookup a = none := by
  induction l with
  | nil => rfl
  | cons e t ih =>
    obtain ⟨x, y⟩ := e
    simp only [List.map_cons, List.mem_cons, not_or] at h
    have h2 : (a == x) = false := by simpa using h.1
    rw [List.lookup_cons, h2]
    exact ih h.2

/-- Copying a list of entries with distinct keys into a map: the copied entries win. -/
theorem StringMap.lookup_storeAll (src : List (String × String))
    (hs : (src.map Prod.fst).Nodup) (dst : StringMap) (a : String) :
    (dst.storeAll src).lookup a = (src.lookup a).orElse (fun _ => dst.lookup a) := by
  induction src generalizing dst with
  | nil => rfl
  | cons e t ih =>
    obtain ⟨x, y⟩ := e
    rw [List.map_cons, List.nodup_cons] at hs
    have step : dst.storeAll ((x, y) :: t) = (dst.store x y).storeAll t := rfl
    rw [step, ih hs.2]
    by_cases hx : a = x
    · subst hx
      rw [lookup_eq_none_of_not_mem_keys a t hs.1, StringMap.lookup_store_self]
      simp [List.lookup_cons]
    · have h2 : (a == x) = false := by simpa using hx
      rw [StringMap.lookup_store_ne _ _ _ _ hx, List.lookup_cons, h2]

theorem StringMap.lookup_empty (a : String) : StringMap.empty.lookup a = none := rfl

/-- With no dynamic labels, the combined labels hold what the static labels hold. -/
theorem lookup_CombineLabels_nil (static : GoMap) (a : String) :
    (CombineLabels static GoMap.nil).lookup a = static.lookup a := by
  cases static with
  | nil => rfl
  | alloc m =>
    show ((StringMap.empty.storeAll m.entries).storeAll []).lookup a = m.lookup a
    have h : (StringMap.empty.storeAll m.entries).storeAll [] =
        StringMap.empty.storeAll m.entries := rfl
    rw [h, StringMap.lookup_storeAll m.entries m.nodupKeys]
    unfold StringMap.lookup
    cases List.lookup a m.entries <;> rfl

/-- In a list of entries with distinct keys, the values found by key are the values listed. -/
theorem mem_values_iff_lookup (l : List (String × String))
    (h : (l.map Prod.fst).Nodup) (v : String) :
    v ∈ l.map Prod.snd ↔ ∃ k, l.lookup k = some v := by
  induction l with
  | nil => simp
  | cons e t ih =>
    obtain ⟨x, y⟩ := e
    rw [List.map_cons, List.nodup_cons] at h
    rw [List.map_cons, List.mem_cons, ih h.2]
    constructor
    · rintro (hv | ⟨k, hk⟩)
      · exact ⟨x, by simp [List.lookup_cons, hv]⟩
      · refine ⟨k, ?_⟩
        have hne : k ≠ x := by
          rintro rfl
          rw [lookup_eq_none_of_not_mem_keys k t h.1] at hk
          cases hk
        have h2 : (k == x) = false := by simpa using hne
        rw [List.lookup_cons, h2]
        exact hk
    · rintro ⟨k, hk⟩
      by_cases hx : k = x
      · subst hx
        left
        simpa [List.lookup_cons, eq_comm] using hk
      · right
        have h2 : (k == x) = false := by simpa using hx
        rw [List.lookup_cons, h2] at hk
        exact ⟨k, hk⟩

/-- The strings listed by `MapToStrings` are the values the map holds under some key. -/
theorem mem_MapToStrings_iff (m : GoMap) (v : String) :
    v ∈ utils.MapToStrings m ↔ ∃ k, m.lookup k = some v := by
  cases m with
  | nil => simp [utils.MapToStrings, GoMap.entries, GoMap.lookup]
  | alloc m => exact mem_values_iff_lookup m.entries m.nodupKeys v

/-- The search `hasInfix` finds exactly the contiguous sublists. -/
theorem hasInfix_iff (s sub : List Char) : hasInfix s sub = true ↔ sub <:+: s := by
  induction s with
  | nil => simp [hasInfix, List.infix_nil]
  | cons c cs ih =>
    rw [hasInfix, Bool.or_eq_true, List.isPrefixOf_iff_prefix, ih, List.infix_cons_iff]

/-- The shared matcher without a custom matcher: every term is contained in some field. -/
theorem MatchSearch_none_iff (lower : Char → Char) (fieldVals searchVals : List String) :
    MatchSearch lower fieldVals searchVals none = true ↔
      ∀ t ∈ searchVals, ∃ v ∈ fieldVals, containsFold lower v t = true := by
  induction searchVals with
  | nil => simp [MatchSearch]
  | cons t rest ih =>
    rw [MatchSearch]
    by_cases h : fieldVals.any (fun fieldV => containsFold lower fieldV t) = true
    · rw [if_pos h, ih]
      have h1 := List.any_eq_true.1 h
      simp only [List.mem_cons, forall_eq_or_imp]
      exact ⟨fun hr => ⟨h1, hr⟩, fun hr => hr.2⟩
    · rw [if_neg h]
      simp only [List.mem_cons, forall_eq_or_imp]
      constructor
      · intro hf
        cases hf
      · intro hr
        exact absurd (List.any_eq_true.2 hr.1) h

/-- Reading the key just assigned gives the assigned value. -/
theorem GoMap.index_assign (m m1 : GoMap) (k v : String) (h : m.assign k v = some m1) :
    m1.index k = v := by
  cases m with
  | nil => cases h
  | alloc sm =>
    simp only [GoMap.assign, Option.some.injEq] at h
    subst h
    simp [GoMap.index, GoMap.lookup, StringMap.lookup_store_self]

/-- A mutator call leaves the spec payload of the resource as it was. -/
theorem Mutator.apply_spec (c c1 : ConnectionDiagnosticV1) (m : Mutator)
    (h : m.apply c = some c1) : c1.Spec = c.Spec := by
  cases m with
  | setStaticLabels sl =>
    simp only [Mutator.apply, Option.some.injEq] at h
    subst h
    rfl
  | setOrigin o =>
    simp only [Mutator.apply, ConnectionDiagnosticV1.SetOrigin] at h
    split at h
    · cases h
    · simp only [Option.some.injEq] at h
      subst h
      rfl

/-- A sequence of mutator calls leaves the spec payload of the resource as it was. -/
theorem applyMutators_spec (ms : List Mutator) (c c1 : ConnectionDiagnosticV1)
    (h : applyMutators c ms = some c1) : c1.Spec = c.Spec := by
  induction ms generalizing c with
  | nil =>
    simp only [applyMutators, Option.some.injEq] at h
    subst h
    rfl
  | cons m rest ih =>
    rw [applyMutators] at h
    split at h
    · cases h
    · next c2 hc2 => rw [ih c2 h, Mutator.apply_spec c c2 m hc2]

/-- A sequence of mutator calls runs to its end when the label mapping exists at the start and
every `SetStaticLabels` of the sequence installs an existing mapping. -/
theorem applyMutators_isSome (ms : List Mutator) (c : ConnectionDiagnosticV1)
    (hc : c.GetStaticLabels ≠ GoMap.nil)
    (hms : ∀ sl, Mutator.setStaticLabels sl ∈ ms → sl ≠ GoMap.nil) :
    ∃ c1, applyMutators c ms = some c1 := by
  induction ms generalizing c with
  | nil => exact ⟨c, rfl⟩
  | cons m rest ih =>
    have hrest : ∀ sl, Mutator.setStaticLabels sl ∈ rest → sl ≠ GoMap.nil :=
      fun sl h => hms sl (List.mem_cons_of_mem _ h)
    cases m with
    | setStaticLabels sl =>
      have hsl : sl ≠ GoMap.nil := hms sl (List.mem_cons_self _ _)
      exact ih (c.SetStaticLabels sl) hsl hrest
    | setOrigin o =>
      cases hl : c.ResourceHeader.Metadata.Labels with
      | nil => exact absurd hl hc
      | alloc sm =>
        have h1 : Mutator.apply c (Mutator.setOrigin o) =
            some { c with ResourceHeader := { c.ResourceHeader with Metadata :=
              { c.ResourceHeader.Metadata with
                Labels := GoMap.alloc (sm.store OriginLabel o) } } } := by
          simp [Mutator.apply, ConnectionDiagnosticV1.SetOrigin, hl, GoMap.assign]
        rw [applyMutators, h1]
        exact ih _ (by simp [ConnectionDiagnosticV1.GetStaticLabels]) hrest

/-- With a non-empty message the constructor returns the resource it has built. -/
theorem NewConnectionDiagnosticV1_of_message_ne (name : String) (labels : GoMap)
    (spec : ConnectionDiagnosticSpecV1) (h : spec.Message ≠ "") :
    NewConnectionDiagnosticV1 name labels spec =
      (some { ResourceHeader :=
                { Version := V1
                  Kind := KindConnectionDiagnostic
                  Metadata := { Name := name, Labels := labels } }
              Spec := spec }, none) := by
  simp [NewConnectionDiagnosticV1, ConnectionDiagnosticV1.CheckAndSetDefaults, h]

/-- Every string contains itself, case folded or not. -/
theorem containsFold_self (lower : Char → Char) (s : String) :
    containsFold lower s s = true :=
  (hasInfix_iff _ _).2 List.infix_rfl

/-- Two lists have the same image under a map exactly when they agree item by item up to
the map. -/
theorem map_eq_map_iff_forall₂ (f : Char → Char) (l1 l2 : List Char) :
    l1.map f = l2.map f ↔ List.Forall₂ (fun a b => f a = f b) l1 l2 := by
  rw [← List.forall₂_eq_eq_eq, List.forall₂_map_left_iff, List.forall₂_map_right_iff]

/-- The matcher's test of one term against one value is the case-insensitive substring
relation: a block of the value spells the term up to case. -/
theorem containsFold_iff (lower : Char → Char) (value term : String) :
    containsFold lower value term = true ↔ IsSubstringFold lower term value := by
  unfold containsFold foldCase IsSubstringFold SameLetter
  rw [hasInfix_iff]
  constructor
  · rintro ⟨s, t, h⟩
    obtain ⟨l1, suf, hv, h1, _⟩ := List.map_eq_append_iff.1 h.symm
    obtain ⟨pre, mid, hl1, _, hmid⟩ := List.map_eq_append_iff.1 h1
    refine ⟨pre, mid, suf, by rw [hv, hl1], ?_⟩
    exact (map_eq_map_iff_forall₂ lower mid term.toList).1 hmid
  · rintro ⟨pre, mid, suf, hv, hmid⟩
    refine ⟨pre.map lower, suf.map lower, ?_⟩
    rw [hv, List.map_append, List.map_append,
      (map_eq_map_iff_forall₂ lower mid term.toList).2 hmid]

/-- The shared matcher without a custom matcher treats a concatenation of term lists as the
conjunction of the two lists. -/
theorem MatchSearch_none_append (lower : Char → Char) (fieldVals a b : List String) :
    MatchSearch lower fieldVals (a ++ b) none = true ↔
      MatchSearch lower fieldVals a none = true ∧
        MatchSearch lower fieldVals b none = true := by
  simp only [MatchSearch_none_iff, List.mem_append]
  constructor
  · intro h
    exact ⟨fun t ht => h t (Or.inl ht), fun t ht => h t (Or.inr ht)⟩
  · rintro ⟨ha, hb⟩ t (ht | ht)
    · exact ha t ht
    · exact hb t ht

/-- The shared matcher without a custom matcher depends on the field values only through
the set of them. -/
theorem MatchSearch_none_congr (lower : Char → Char) (f1 f2 terms : List String)
    (h : ∀ v, v ∈ f1 ↔ v ∈ f2) :
    MatchSearch lower f1 terms none = MatchSearch lower f2 terms none := by
  rw [Bool.eq_iff_iff, MatchSearch_none_iff, MatchSearch_none_iff]
  constructor
  · intro hm t ht
    obtain ⟨v, hv, hc⟩ := hm t ht
    exact ⟨v, (h v).1 hv, hc⟩
  · intro hm t ht
    obtain ⟨v, hv, hc⟩ := hm t ht
    exact ⟨v, (h v).2 hv, hc⟩

/-- The strings that `MapToStrings` lists for `GetAllLabels` are the values of the static
labels. -/
theorem mem_MapToStrings_GetAllLabels (c : ConnectionDiagnosticV1) (v : String) :
    v ∈ utils.MapToStrings c.GetAllLabels ↔ v ∈ c.GetStaticLabels.entries.map Prod.snd := by
  rw [mem_MapToStrings_iff]
  have h : ∀ k, c.GetAllLabels.lookup k = c.GetStaticLabels.lookup k :=
    fun k => lookup_CombineLabels_nil c.ResourceHeader.Metadata.Labels k
  simp only [h]
  exact (mem_MapToStrings_iff c.GetStaticLabels v).symm

/-- On an existing label mapping `SetOrigin` stores the origin and returns. -/
theorem SetOrigin_of_alloc (c : ConnectionDiagnosticV1) (sm : StringMap) (o : String)
    (hl : c.ResourceHeader.Metadata.Labels = GoMap.alloc sm) :
    c.SetOrigin o =
      some { c with ResourceHeader := { c.ResourceHeader with Metadata :=
        { c.ResourceHeader.Metadata with Labels := GoMap.alloc (sm.store OriginLabel o) } } } := by
  simp [ConnectionDiagnosticV1.SetOrigin, hl, GoMap.assign]

/-- In a list of entries with distinct keys, a key is found with a value exactly when the
entry is in the list. -/
theorem lookup_eq_some_iff_mem (l : List (String × String)) (h : (l.map Prod.fst).Nodup)
    (k v : String) : l.lookup k = some v ↔ (k, v) ∈ l := by
  induction l with
  | nil => simp
  | cons e t ih =>
    obtain ⟨x, y⟩ := e
    rw [List.map_cons, List.nodup_cons] at h
    by_cases hx : k = x
    · subst hx
      have hnot : (k, v) ∉ t := fun hm => h.1 (List.mem_map.2 ⟨(k, v), hm, rfl⟩)
      simp [List.lookup_cons, hnot, eq_comm]
    · have h2 : (k == x) = false := by simpa using hx
      rw [List.lookup_cons, h2, List.mem_cons, ih h.2]
      simp [hx]

/-- Two enumerations of the same entries, keys distinct, find the same value by key. -/
theorem lookup_perm (l1 l2 : List (String × String)) (hp : l1.Perm l2)
    (h : (l2.map Prod.fst).Nodup) (k : String) : l1.lookup k = l2.lookup k := by
  have h1 : (l1.map Prod.fst).Nodup := ((hp.map Prod.fst).nodup_iff).2 h
  apply Option.ext
  intro v
  show l1.lookup k = some v ↔ l2.lookup k = some v
  rw [lookup_eq_some_iff_mem l1 h1, lookup_eq_some_iff_mem l2 h, hp.mem_iff]

/-- The entries of a map have distinct keys. -/
theorem GoMap.nodup_keys_entries (m : GoMap) : (m.entries.map Prod.fst).Nodup := by
  cases m with
  | nil => exact List.nodup_nil
  | alloc sm => exact sm.nodupKeys

/-- Reading a map by key is finding the key among its entries. -/
theorem GoMap.lookup_eq_entries_lookup (m : GoMap) (k : String) :
    m.lookup k = m.entries.lookup k := by
  cases m with
  | nil => rfl
  | alloc sm => rfl

/-- Copying entries into the map most recently made writes that map and no other. -/
theorem Heap.copyInto_fresh (es : List (String × String)) (maps : List StringMap)
    (m : StringMap) :
    Heap.copyInto ⟨maps ++ [m]⟩ (MapRef.addr maps.length) es =
      some ⟨maps ++ [m.storeAll es]⟩ := by
  induction es generalizing m with
  | nil => rfl
  | cons e t ih =>
    have h1 : Heap.assign ⟨maps ++ [m]⟩ (MapRef.addr maps.length) e.1 e.2 =
        some ⟨maps ++ [m.store e.1 e.2]⟩ := by
      simp [Heap.assign, List.set_append_right]
    rw [Heap.copyInto, h1]
    exact ih (m.store e.1 e.2)

/-- A reference that is nil or the address of an allocated map stands for the same map after
further maps have been made. -/
theorem Heap.deref_append (maps more : List StringMap) (r : MapRef)
    (h : Heap.Valid ⟨maps⟩ r) :
    Heap.deref ⟨maps ++ more⟩ r = Heap.deref ⟨maps⟩ r := by
  cases r with
  | nil => rfl
  | addr a =>
    have ha : a < maps.length := h
    simp [Heap.deref, List.getElem?_append_left ha]

/-- With no dynamic labels, `CombineLabels` on references returns: it makes one new map, which
holds the entries of the static labels, and leaves the maps that existed as they were. -/
theorem CombineLabelsRef_nil (enum : List (String × String) → List (String × String))
    (henum : ∀ l, (enum l).Perm l) (maps : List StringMap) (static : MapRef)
    (h : Heap.Valid ⟨maps⟩ static) :
    CombineLabelsRef enum ⟨maps⟩ static MapRef.nil =
      some (⟨maps ++ [StringMap.empty.storeAll (enum (Heap.deref ⟨maps⟩ static).entries)]⟩,
        MapRef.addr maps.length) := by
  have hnil : enum [] = [] := (henum []).eq_nil
  unfold CombineLabelsRef
  simp only [Heap.make]
  rw [Heap.deref_append maps [StringMap.empty] static h, Heap.copyInto_fresh]
  simp only [Heap.deref, GoMap.entries, hnil]
  rfl

/-- The map that `CombineLabels` on references returns holds, key by key, what the static
labels hold, in whatever order the entries were visited. -/
theorem lookup_storeAll_enum (enum : List (String × String) → List (String × String))
    (henum : ∀ l, (enum l).Perm l) (m : GoMap) (k : String) :
    (StringMap.empty.storeAll (enum m.entries)).lookup k = m.lookup k := by
  have hn : ((enum m.entries).map Prod.fst).Nodup :=
    (((henum m.entries).map Prod.fst).nodup_iff).2 m.nodup_keys_entries
  rw [StringMap.lookup_storeAll _ hn, lookup_perm _ _ (henum m.entries) m.nodup_keys_entries,
    GoMap.lookup_eq_entries_lookup]
  cases List.lookup k m.entries <;> rfl

/-! ## Theorems -/

/-- C1: `NewConnectionDiagnosticV1 name labels spec` returns an error exactly when
`spec.Message` is the empty string, and whenever it returns an error that error is of the
bad-parameter class and the returned resource is nil. -/
theorem newConnectionDiagnosticV1_error_iff (name : String) (labels : GoMap)
    (spec : ConnectionDiagnosticSpecV1) :
    ((NewConnectionDiagnosticV1 name labels spec).2 ≠ none ↔ spec.Message = "") ∧
    (∀ err, (NewConnectionDiagnosticV1 name labels spec).2 = some err →
      trace.IsBadParameter err = true ∧ (NewConnectionDiagnosticV1 name labels spec).1 = none) := by
  by_cases h : spec.Message = ""
  · simp [NewConnectionDiagnosticV1, ConnectionDiagnosticV1.CheckAndSetDefaults, h,
      trace.Wrap, trace.BadParameter, trace.IsBadParameter]
  · simp [NewConnectionDiagnosticV1, ConnectionDiagnosticV1.CheckAndSetDefaults, h]

/-- C2: for every name, every label mapping and every spec with a non-empty message,
`NewConnectionDiagnosticV1` succeeds (a resource and a nil error), and on the returned
resource `GetMessage` is the input message and `IsSuccess` is the input success flag. -/
theorem newConnectionDiagnosticV1_ok (name : String) (labels : GoMap)
    (spec : ConnectionDiagnosticSpecV1) (h : spec.Message ≠ "") :
    ∃ c, NewConnectionDiagnosticV1 name labels spec = (some c, none) ∧
      c.GetMessage = spec.Message ∧ c.IsSuccess = spec.Success := by
  simp [NewConnectionDiagnosticV1, ConnectionDiagnosticV1.CheckAndSetDefaults, h,
    ConnectionDiagnosticV1.GetMessage, ConnectionDiagnosticV1.IsSuccess]

/-- Witness of C2: the empty name, the nil label mapping and the spec
`{success: true, message: "connected"}`. -/
theorem newConnectionDiagnosticV1_ok_witness :
    (⟨true, "connected"⟩ : ConnectionDiagnosticSpecV1).Message ≠ "" ∧
    ∃ c, NewConnectionDiagnosticV1 "" GoMap.nil ⟨true, "connected"⟩ = (some c, none) ∧
      c.GetMessage = "connected" ∧ c.IsSuccess = true :=
  ⟨by decide, newConnectionDiagnosticV1_ok "" GoMap.nil ⟨true, "connected"⟩ (by decide)⟩

/-- C3: for every case table, `c.MatchSearch terms` is true exactly when every term is a
case-insensitive substring of at least one candidate value, the candidate values being the
values that `c.GetAllLabels` holds under some key and the name of the resource.  On the
resource `"diag-1"` with labels `{"env": "prod"}` the terms `["prod"]` match and
`["staging"]` do not; `["PROD"]` and `["Diag"]` match, and would not if no letter were
lowered; the resource named `"É"` matches `["é"]` under a table that knows the letter. -/
theorem matchSearch_iff :
    (∀ (lower : Char → Char) (c : ConnectionDiagnosticV1) (terms : List String),
      c.MatchSearch lower terms = true ↔
        ∀ t ∈ terms, ∃ v, ((∃ k, c.GetAllLabels.lookup k = some v) ∨ v = c.GetName) ∧
          IsSubstringFold lower t v) ∧
    diag1.MatchSearch Char.toLower ["prod"] = true ∧
    diag1.MatchSearch Char.toLower ["staging"] = false ∧
    diag1.MatchSearch Char.toLower ["PROD"] = true ∧
    diag1.MatchSearch Char.toLower ["Diag"] = true ∧
    diag1.MatchSearch noLower ["PROD"] = false ∧
    diag1.MatchSearch latin1Lower ["PROD", "Diag"] = true ∧
    diagE.MatchSearch latin1Lower ["é"] = true := by
  refine ⟨?_, by decide, by decide, by decide, by decide, by decide, by decide, by decide⟩
  intro lower c terms
  unfold ConnectionDiagnosticV1.MatchSearch
  rw [MatchSearch_none_iff]
  constructor
  · intro h t ht
    obtain ⟨v, hv, hc⟩ := h t ht
    refine ⟨v, ?_, (containsFold_iff lower v t).1 hc⟩
    rcases List.mem_append.1 hv with h1 | h1
    · exact Or.inl ((mem_MapToStrings_iff _ v).1 h1)
    · exact Or.inr (by simpa using h1)
  · intro h t ht
    obtain ⟨v, hv, hc⟩ := h t ht
    refine ⟨v, ?_, (containsFold_iff lower v t).2 hc⟩
    rcases hv with h1 | h1
    · exact List.mem_append.2 (Or.inl ((mem_MapToStrings_iff _ v).2 h1))
    · exact List.mem_append.2 (Or.inr (by simp [h1]))

/-- Counterexample to C4 as stated: constructed with the nil label mapping, the resource has
the nil label mapping, and `SetOrigin "x"` on it panics. -/
theorem setOrigin_after_new_nil_labels_panics :
    ∃ c, NewConnectionDiagnosticV1 "diag-1" GoMap.nil ⟨true, "connected"⟩ = (some c, none) ∧
      c.GetStaticLabels = GoMap.nil ∧ c.SetOrigin "x" = none :=
  ⟨_, rfl, rfl, rfl⟩

/-- C4, amended: for every name, every spec with a non-empty message and every labels
argument that is an existing mapping (possibly empty), `NewConnectionDiagnosticV1` returns a
resource whose label mapping exists, `SetOrigin o` on it completes for every `o`, and
afterwards `Origin` returns `o`. -/
theorem setOrigin_after_new (name : String) (m : StringMap) (spec : ConnectionDiagnosticSpecV1)
    (o : String) (h : spec.Message ≠ "") :
    ∃ c, NewConnectionDiagnosticV1 name (GoMap.alloc m) spec = (some c, none) ∧
      c.GetStaticLabels ≠ GoMap.nil ∧
      ∃ c1, c.SetOrigin o = some c1 ∧ c1.Origin = o := by
  simp [NewConnectionDiagnosticV1, ConnectionDiagnosticV1.CheckAndSetDefaults, h,
    ConnectionDiagnosticV1.GetStaticLabels, ConnectionDiagnosticV1.SetOrigin, GoMap.assign,
    ConnectionDiagnosticV1.Origin, GoMap.index, GoMap.lookup, StringMap.lookup_store_self]

/-- Witness of the amended C4: the empty, allocated label mapping and the origin `"cloud"`. -/
theorem setOrigin_after_new_witness :
    (⟨false, "timeout"⟩ : ConnectionDiagnosticSpecV1).Message ≠ "" ∧
    ∃ c, NewConnectionDiagnosticV1 "diag-1" (GoMap.alloc StringMap.empty) ⟨false, "timeout"⟩ =
        (some c, none) ∧
      c.GetStaticLabels ≠ GoMap.nil ∧
      ∃ c1, c.SetOrigin "cloud" = some c1 ∧ c1.Origin = "cloud" :=
  ⟨by decide, setOrigin_after_new "diag-1" StringMap.empty ⟨false, "timeout"⟩ "cloud" (by decide)⟩

/-- C5: after `SetStaticLabels M`, `GetStaticLabels` returns `M` itself and `GetAllLabels`
returns a mapping with the keys and values of `M`, whatever the labels were before. -/
theorem setStaticLabels_roundtrip (c : ConnectionDiagnosticV1) (M : GoMap) :
    (c.SetStaticLabels M).GetStaticLabels = M ∧
    (∀ k, (c.SetStaticLabels M).GetAllLabels.lookup k = M.lookup k) ∧
    (∀ d : ConnectionDiagnosticV1,
      (c.SetStaticLabels M).GetStaticLabels = (d.SetStaticLabels M).GetStaticLabels ∧
      (c.SetStaticLabels M).GetAllLabels = (d.SetStaticLabels M).GetAllLabels) :=
  ⟨rfl, fun k => lookup_CombineLabels_nil M k, fun _ => ⟨rfl, rfl⟩⟩

/-- C6: on a resource whose label mapping exists, `SetOrigin x` completes and `Origin` then
returns `x`; a further `SetOrigin y` completes and `Origin` then returns `y`. -/
theorem setOrigin_roundtrip (c : ConnectionDiagnosticV1) (x y : String)
    (h : c.GetStaticLabels ≠ GoMap.nil) :
    ∃ c1, c.SetOrigin x = some c1 ∧ c1.Origin = x ∧
      ∃ c2, c1.SetOrigin y = some c2 ∧ c2.Origin = y := by
  cases hl : c.ResourceHeader.Metadata.Labels with
  | nil => exact absurd hl h
  | alloc sm =>
    simp [ConnectionDiagnosticV1.SetOrigin, hl, GoMap.assign, ConnectionDiagnosticV1.Origin,
      GoMap.index, GoMap.lookup, StringMap.lookup_store_self]

/-- Witness of C6: a resource without an origin entry, and one that has an origin entry. -/
theorem setOrigin_roundtrip_witness :
    (diag1.GetStaticLabels ≠ GoMap.nil ∧
      ∃ c1, diag1.SetOrigin "x" = some c1 ∧ c1.Origin = "x" ∧
        ∃ c2, c1.SetOrigin "y" = some c2 ∧ c2.Origin = "y") ∧
    ((diag1.SetStaticLabels originCloud).GetStaticLabels ≠ GoMap.nil ∧
      ∃ c1, (diag1.SetStaticLabels originCloud).SetOrigin "x" = some c1 ∧ c1.Origin = "x" ∧
        ∃ c2, c1.SetOrigin "y" = some c2 ∧ c2.Origin = "y") :=
  ⟨⟨by simp [diag1, envProd, ConnectionDiagnosticV1.GetStaticLabels],
    setOrigin_roundtrip diag1 "x" "y"
      (by simp [diag1, envProd, ConnectionDiagnosticV1.GetStaticLabels])⟩,
   ⟨by simp [originCloud, ConnectionDiagnosticV1.GetStaticLabels,
      ConnectionDiagnosticV1.SetStaticLabels],
    setOrigin_roundtrip (diag1.SetStaticLabels originCloud) "x" "y"
      (by simp [originCloud, ConnectionDiagnosticV1.GetStaticLabels,
        ConnectionDiagnosticV1.SetStaticLabels])⟩⟩

/-- Counterexample to C7 as stated: constructed with labels that hold `"cloud"` under the
origin key, the resource answers `"cloud"`, not the empty string, to `Origin` before any call
of `SetOrigin`. -/
theorem origin_after_new_not_empty :
    ∃ c, NewConnectionDiagnosticV1 "diag-1" originCloud ⟨true, "connected"⟩ = (some c, none) ∧
      c.Origin = "cloud" ∧ c.Origin ≠ "" := by
  refine ⟨_, rfl, ?_⟩
  have h : ConnectionDiagnosticV1.Origin
      { ResourceHeader :=
          { Version := V1
            Kind := KindConnectionDiagnostic
            Metadata := { Name := "diag-1", Labels := originCloud } }
        Spec := ⟨true, "connected"⟩ } = "cloud" := by
    simp [ConnectionDiagnosticV1.Origin, originCloud, GoMap.index, GoMap.lookup,
      StringMap.lookup, List.lookup_cons]
  rw [h]
  exact ⟨rfl, by decide⟩

/-- C7, amended: on the resource returned by `NewConnectionDiagnosticV1`, before any call of
`SetOrigin`, `Origin` returns what the labels argument holds under the origin key; it is the
empty string when the labels argument is nil or has no entry under the origin key. -/
theorem origin_after_new (name : String) (labels : GoMap) (spec : ConnectionDiagnosticSpecV1)
    (h : spec.Message ≠ "") :
    ∃ c, NewConnectionDiagnosticV1 name labels spec = (some c, none) ∧
      c.Origin = labels.index OriginLabel ∧
      (labels.lookup OriginLabel = none → c.Origin = "") := by
  refine ⟨_, NewConnectionDiagnosticV1_of_message_ne name labels spec h, rfl, ?_⟩
  intro hl
  simp [ConnectionDiagnosticV1.Origin, GoMap.index, hl]

/-- Witness of the amended C7: the nil label mapping, which has no entry under any key. -/
theorem origin_after_new_witness :
    (⟨true, "connected"⟩ : ConnectionDiagnosticSpecV1).Message ≠ "" ∧
    ∃ c, NewConnectionDiagnosticV1 "diag-1" GoMap.nil ⟨true, "connected"⟩ = (some c, none) ∧
      c.Origin = GoMap.nil.index OriginLabel ∧
      (GoMap.nil.lookup OriginLabel = none → c.Origin = "") :=
  ⟨by decide, origin_after_new "diag-1" GoMap.nil ⟨true, "connected"⟩ (by decide)⟩

/-- C8: on the resource returned by `NewConnectionDiagnosticV1`, after every sequence of
`SetStaticLabels` and `SetOrigin` calls that runs to its end (each `SetOrigin` finding an
existing label mapping), `GetMessage` is the message given at construction, it is not empty,
and `CheckAndSetDefaults` returns no error.  A sequence does run to its end when the labels
argument and every mapping installed by `SetStaticLabels` exist. -/
theorem message_invariant (name : String) (labels : GoMap) (spec : ConnectionDiagnosticSpecV1)
    (h : spec.Message ≠ "") :
    ∃ c, NewConnectionDiagnosticV1 name labels spec = (some c, none) ∧
      (∀ ms c1, applyMutators c ms = some c1 →
        c1.GetMessage = spec.Message ∧ c1.GetMessage ≠ "" ∧ c1.CheckAndSetDefaults = none) ∧
      (∀ ms, labels ≠ GoMap.nil → (∀ sl, Mutator.setStaticLabels sl ∈ ms → sl ≠ GoMap.nil) →
        ∃ c1, applyMutators c ms = some c1) := by
  refine ⟨_, NewConnectionDiagnosticV1_of_message_ne name labels spec h, ?_, ?_⟩
  · intro ms c1 hrun
    have hs := applyMutators_spec ms _ c1 hrun
    simp [ConnectionDiagnosticV1.GetMessage, ConnectionDiagnosticV1.CheckAndSetDefaults, hs, h]
  · intro ms hl hms
    exact applyMutators_isSome ms _ hl hms

/-- Witness of C8: the running example, with the sequence `SetOrigin "cloud"`,
`SetStaticLabels` of the empty mapping, `SetOrigin "dynamic"`, which runs to its end. -/
theorem message_invariant_witness :
    (⟨true, "connected"⟩ : ConnectionDiagnosticSpecV1).Message ≠ "" ∧
    (∃ c1, applyMutators diag1 [Mutator.setOrigin "cloud", Mutator.setStaticLabels emptyLabels,
        Mutator.setOrigin "dynamic"] = some c1 ∧ c1.GetMessage = "connected") ∧
    ∃ c, NewConnectionDiagnosticV1 "diag-1" envProd ⟨true, "connected"⟩ = (some c, none) ∧
      (∀ ms c1, applyMutators c ms = some c1 →
        c1.GetMessage = "connected" ∧ c1.GetMessage ≠ "" ∧ c1.CheckAndSetDefaults = none) ∧
      (∀ ms, envProd ≠ GoMap.nil → (∀ sl, Mutator.setStaticLabels sl ∈ ms → sl ≠ GoMap.nil) →
        ∃ c1, applyMutators c ms = some c1) :=
  ⟨by decide, ⟨_, rfl, rfl⟩,
    message_invariant "diag-1" envProd ⟨true, "connected"⟩ (by decide)⟩

/-- C9: for every name, labels and spec with a non-empty message, the resource returned by
`NewConnectionDiagnosticV1` has version `V1`, kind `"connection_diagnostic"`, the given name,
the given labels as static labels and the given spec. -/
theorem newConnectionDiagnosticV1_fields (name : String) (labels : GoMap)
    (spec : ConnectionDiagnosticSpecV1) (h : spec.Message ≠ "") :
    ∃ c, NewConnectionDiagnosticV1 name labels spec = (some c, none) ∧
      c.ResourceHeader.Version = V1 ∧
      c.ResourceHeader.Kind = KindConnectionDiagnostic ∧
      c.ResourceHeader.Kind = "connection_diagnostic" ∧
      c.GetName = name ∧
      c.GetStaticLabels = labels ∧
      c.Spec = spec :=
  ⟨_, NewConnectionDiagnosticV1_of_message_ne name labels spec h,
    rfl, rfl, rfl, rfl, rfl, rfl⟩

/-- Witness of C9: the running example is what the constructor returns for its fields. -/
theorem newConnectionDiagnosticV1_fields_witness :
    (⟨true, "connected"⟩ : ConnectionDiagnosticSpecV1).Message ≠ "" ∧
    ∃ c, NewConnectionDiagnosticV1 "diag-1" envProd ⟨true, "connected"⟩ = (some c, none) ∧
      c.ResourceHeader.Version = V1 ∧
      c.ResourceHeader.Kind = KindConnectionDiagnostic ∧
      c.ResourceHeader.Kind = "connection_diagnostic" ∧
      c.GetName = "diag-1" ∧
      c.GetStaticLabels = envProd ∧
      c.Spec = ⟨true, "connected"⟩ :=
  ⟨by decide, newConnectionDiagnosticV1_fields "diag-1" envProd ⟨true, "connected"⟩ (by decide)⟩

/-- C10: for every resource, the nil label mapping included, `GetAllLabels` returns a mapping
with the keys and values of `GetStaticLabels`: every key is held by both with the same value
or by neither. -/
theorem getAllLabels_eq_static (c : ConnectionDiagnosticV1) (k : String) :
    c.GetAllLabels.lookup k = c.GetStaticLabels.lookup k :=
  lookup_CombineLabels_nil c.ResourceHeader.Metadata.Labels k

/-- C11: for every resource, and whatever the case table, `MatchSearch` with no search terms
returns true. -/
theorem matchSearch_nil (lower : Char → Char) (c : ConnectionDiagnosticV1) :
    c.MatchSearch lower [] = true := by
  simp [ConnectionDiagnosticV1.MatchSearch, MatchSearch]

/-- C12: the name is a searchable field: for every resource `c`, whatever its labels and
whatever the case table, `c.MatchSearch [c.GetName]` is true; so `["diag-1"]` matches the
resource `"diag-1"` with labels `{"env": "prod"}`. -/
theorem matchSearch_name :
    (∀ (lower : Char → Char) (c : ConnectionDiagnosticV1),
      c.MatchSearch lower [c.GetName] = true) ∧
    diag1.MatchSearch Char.toLower ["diag-1"] = true := by
  refine ⟨?_, by decide⟩
  intro lower c
  unfold ConnectionDiagnosticV1.MatchSearch
  rw [MatchSearch_none_iff]
  intro t ht
  rw [List.mem_singleton] at ht
  subst ht
  exact ⟨c.GetName, List.mem_append.2 (Or.inr (List.mem_singleton.2 rfl)),
    containsFold_self lower _⟩

/-- C13: `MatchSearch` is a conjunction over the terms: for every case table,
`c.MatchSearch (a ++ b)` is true
exactly when `c.MatchSearch a` and `c.MatchSearch b` are both true; the terms may hit
different fields, as `["prod", "diag-1"]` on the resource `"diag-1"` with labels
`{"env": "prod"}`. -/
theorem matchSearch_append :
    (∀ (lower : Char → Char) (c : ConnectionDiagnosticV1) (a b : List String),
      c.MatchSearch lower (a ++ b) = true ↔
        c.MatchSearch lower a = true ∧ c.MatchSearch lower b = true) ∧
    diag1.MatchSearch Char.toLower ["prod", "diag-1"] = true ∧
    diag1.MatchSearch Char.toLower ["prod"] = true ∧
    diag1.MatchSearch Char.toLower ["diag-1"] = true := by
  refine ⟨?_, by decide, by decide, by decide⟩
  intro lower c a b
  exact MatchSearch_none_append lower _ a b

/-- Counterexample to C14 as stated: for a spec with an empty message the error returned by
the constructor carries a message other than `"Spec missing Message field"`. -/
theorem error_message_not_short :
    ∃ err, NewConnectionDiagnosticV1 "diag-1" envProd ⟨false, ""⟩ = (none, some err) ∧
      err.message ≠ "Spec missing Message field" :=
  ⟨_, rfl, by decide⟩

/-- C14, amended: when `spec.Message` is empty, the error returned by
`NewConnectionDiagnosticV1`, and by `CheckAndSetDefaults` on every resource with that spec,
carries the message `"ConnectionDiagnosticV1.Spec missing Message field"`. -/
theorem error_message (name : String) (labels : GoMap) (spec : ConnectionDiagnosticSpecV1)
    (h : spec.Message = "") :
    (∃ err, NewConnectionDiagnosticV1 name labels spec = (none, some err) ∧
      err.message = "ConnectionDiagnosticV1.Spec missing Message field") ∧
    (∀ c : ConnectionDiagnosticV1, c.Spec = spec →
      ∃ err, c.CheckAndSetDefaults = some err ∧
        err.message = "ConnectionDiagnosticV1.Spec missing Message field") := by
  constructor
  · simp [NewConnectionDiagnosticV1, ConnectionDiagnosticV1.CheckAndSetDefaults, h,
      trace.Wrap, trace.BadParameter]
  · intro c hc
    simp [ConnectionDiagnosticV1.CheckAndSetDefaults, hc, h, trace.BadParameter]

/-- Witness of the amended C14: the spec `{success: false, message: ""}`. -/
theorem error_message_witness :
    (⟨false, ""⟩ : ConnectionDiagnosticSpecV1).Message = "" ∧
    (∃ err, NewConnectionDiagnosticV1 "diag-1" envProd ⟨false, ""⟩ = (none, some err) ∧
      err.message = "ConnectionDiagnosticV1.Spec missing Message field") ∧
    (∀ c : ConnectionDiagnosticV1, c.Spec = ⟨false, ""⟩ →
      ∃ err, c.CheckAndSetDefaults = some err ∧
        err.message = "ConnectionDiagnosticV1.Spec missing Message field") :=
  ⟨rfl, error_message "diag-1" envProd ⟨false, ""⟩ rfl⟩

/-- C15: a call of `GetAllLabels` returns and leaves the resource as it was, its label map
included, and every map that existed before the call; a second call right after the first
returns a mapping with the same keys and values as the first, in whatever order either call
visits the label entries; and that mapping is the one `GetAllLabels` stands for. -/
theorem getAllLabels_twice (enum1 enum2 : List (String × String) → List (String × String))
    (s : ResourceState) (h1 : ∀ l, (enum1 l).Perm l) (h2 : ∀ l, (enum2 l).Perm l)
    (hwf : s.WellFormed) :
    ∃ s1 r1 s2 r2, s.GetAllLabels enum1 = some (s1, r1) ∧ s1.GetAllLabels enum2 = some (s2, r2) ∧
      s1.view = s.view ∧ s2.view = s.view ∧
      (∀ a, a < s.heap.maps.length →
        s1.heap.maps[a]? = s.heap.maps[a]? ∧ s2.heap.maps[a]? = s.heap.maps[a]?) ∧
      (∀ k, (s2.heap.deref r2).lookup k = (s1.heap.deref r1).lookup k) ∧
      (∀ k, (s1.heap.deref r1).lookup k = s.view.GetAllLabels.lookup k) := by
  obtain ⟨⟨maps⟩, kind, version, name, labels, spec⟩ := s
  have hwf0 : Heap.Valid ⟨maps⟩ labels := hwf
  let m1 := StringMap.empty.storeAll (enum1 (Heap.deref ⟨maps⟩ labels).entries)
  have hwf1 : Heap.Valid ⟨maps ++ [m1]⟩ labels := by
    cases labels with
    | nil => trivial
    | addr a =>
      have ha : a < maps.length := hwf
      show a < (maps ++ [m1]).length
      rw [List.length_append]
      omega
  have hd1 : Heap.deref ⟨maps ++ [m1]⟩ labels = Heap.deref ⟨maps⟩ labels :=
    Heap.deref_append maps [m1] labels hwf0
  let m2 := StringMap.empty.storeAll (enum2 (Heap.deref ⟨maps⟩ labels).entries)
  have hd2 : Heap.deref ⟨maps ++ [m1] ++ [m2]⟩ labels = Heap.deref ⟨maps⟩ labels := by
    rw [Heap.deref_append (maps ++ [m1]) [m2] labels hwf1, hd1]
  have e1 : ResourceState.GetAllLabels enum1 ⟨⟨maps⟩, kind, version, name, labels, spec⟩ =
      some (⟨⟨maps ++ [m1]⟩, kind, version, name, labels, spec⟩,
        MapRef.addr maps.length) := by
    simp only [ResourceState.GetAllLabels, CombineLabelsRef_nil enum1 h1 maps labels hwf0]
  have e2 : ResourceState.GetAllLabels enum2
      ⟨⟨maps ++ [m1]⟩, kind, version, name, labels, spec⟩ =
      some (⟨⟨maps ++ [m1] ++ [m2]⟩, kind, version, name, labels, spec⟩,
        MapRef.addr (maps ++ [m1]).length) := by
    simp only [ResourceState.GetAllLabels,
      CombineLabelsRef_nil enum2 h2 (maps ++ [m1]) labels hwf1, hd1]
  have r1 : Heap.deref ⟨maps ++ [m1]⟩ (MapRef.addr maps.length) = GoMap.alloc m1 := by
    simp [Heap.deref]
  have r2 : Heap.deref ⟨maps ++ [m1] ++ [m2]⟩ (MapRef.addr (maps ++ [m1]).length) =
      GoMap.alloc m2 := by
    simp only [Heap.deref, List.getElem?_concat_length]
  have l1 : ∀ k, m1.lookup k = (Heap.deref ⟨maps⟩ labels).lookup k :=
    fun k => lookup_storeAll_enum enum1 h1 _ k
  have l2 : ∀ k, m2.lookup k = (Heap.deref ⟨maps⟩ labels).lookup k :=
    fun k => lookup_storeAll_enum enum2 h2 _ k
  refine ⟨_, _, _, _, e1, e2, ?_, ?_, ?_, ?_, ?_⟩
  · simp only [ResourceState.view, hd1]
  · simp only [ResourceState.view, hd2]
  · intro a ha
    have ha : a < maps.length := ha
    have ha1 : a < (maps ++ [m1]).length := by
      rw [List.length_append]
      omega
    exact ⟨List.getElem?_append_left ha,
      by rw [List.getElem?_append_left ha1, List.getElem?_append_left ha]⟩
  · intro k
    rw [r1, r2]
    show m2.lookup k = m1.lookup k
    rw [l1, l2]
  · intro k
    rw [r1]
    show m1.lookup k = _
    rw [l1]
    exact (lookup_CombineLabels_nil _ k).symm

/-- Witness of C15: the running example in memory, the first call visiting the entries in
the order stored and the second in the reverse order. -/
theorem getAllLabels_twice_witness :
    (∀ l : List (String × String), (id l).Perm l) ∧
    (∀ l : List (String × String), l.reverse.Perm l) ∧
    diag1State.WellFormed ∧
    ∃ s1 r1 s2 r2, diag1State.GetAllLabels id = some (s1, r1) ∧
      s1.GetAllLabels List.reverse = some (s2, r2) ∧
      s1.view = diag1State.view ∧ s2.view = diag1State.view ∧
      (∀ a, a < diag1State.heap.maps.length →
        s1.heap.maps[a]? = diag1State.heap.maps[a]? ∧
          s2.heap.maps[a]? = diag1State.heap.maps[a]?) ∧
      (∀ k, (s2.heap.deref r2).lookup k = (s1.heap.deref r1).lookup k) ∧
      (∀ k, (s1.heap.deref r1).lookup k = diag1State.view.GetAllLabels.lookup k) :=
  ⟨fun l => List.Perm.refl l, fun l => List.reverse_perm l,
    show (0 : Nat) < 1 from Nat.one_pos,
    getAllLabels_twice id List.reverse diag1State (fun l => List.Perm.refl l)
      (fun l => List.reverse_perm l) (show (0 : Nat) < 1 from Nat.one_pos)⟩

/-- C16: the result of `MatchSearch` does not depend on the order in which the label entries
are enumerated, whatever the case table: any permutation of the candidate values followed
by the name gives the matcher the same result, and so does any resource of the same name
whose static labels are the same entries in another order. -/
theorem matchSearch_order_independent (lower : Char → Char) (c : ConnectionDiagnosticV1)
    (terms cands : List String)
    (h : cands.Perm (utils.MapToStrings c.GetAllLabels)) :
    MatchSearch lower (cands ++ [c.GetName]) terms none = c.MatchSearch lower terms ∧
    (∀ c2 : ConnectionDiagnosticV1, c2.GetName = c.GetName →
      c2.GetStaticLabels.entries.Perm c.GetStaticLabels.entries →
      c2.MatchSearch lower terms = c.MatchSearch lower terms) := by
  constructor
  · unfold ConnectionDiagnosticV1.MatchSearch
    apply MatchSearch_none_congr
    intro v
    simp only [List.mem_append, h.mem_iff]
  · intro c2 hn hp
    unfold ConnectionDiagnosticV1.MatchSearch
    apply MatchSearch_none_congr
    intro v
    simp only [List.mem_append, mem_MapToStrings_GetAllLabels, hn, (hp.map Prod.snd).mem_iff]

/-- Witness of C16: the resource `"diag-2"` with labels `{"env": "prod", "region": "eu"}`,
the candidates in the order `"prod"`, `"eu"`, and the same resource with its labels
enumerated in the other order. -/
theorem matchSearch_order_independent_witness :
    ["prod", "eu"].Perm (utils.MapToStrings diag2.GetAllLabels) ∧
    (diag2.SetStaticLabels regionEnv).GetStaticLabels.entries.Perm
      diag2.GetStaticLabels.entries ∧
    MatchSearch Char.toLower (["prod", "eu"] ++ [diag2.GetName]) ["EU", "diag"] none
      = diag2.MatchSearch Char.toLower ["EU", "diag"] ∧
    (∀ c2 : ConnectionDiagnosticV1, c2.GetName = diag2.GetName →
      c2.GetStaticLabels.entries.Perm diag2.GetStaticLabels.entries →
      c2.MatchSearch Char.toLower ["EU", "diag"] = diag2.MatchSearch Char.toLower ["EU", "diag"]) :=
  ⟨List.Perm.swap _ _ _, List.Perm.swap _ _ _,
    matchSearch_order_independent Char.toLower diag2 ["EU", "diag"] ["prod", "eu"]
      (List.Perm.swap _ _ _)⟩

/-- C17: on a resource whose label mapping exists, `SetOrigin o` completes and changes only
the entry under the origin key: every other key holds the same value as before, or is absent
as before, and the name, version, kind, success flag and message are as before. -/
theorem setOrigin_frame (c : ConnectionDiagnosticV1) (o : String)
    (h : c.GetStaticLabels ≠ GoMap.nil) :
    ∃ c1, c.SetOrigin o = some c1 ∧
      (∀ k, k ≠ OriginLabel → c1.GetStaticLabels.lookup k = c.GetStaticLabels.lookup k) ∧
      c1.GetName = c.GetName ∧
      c1.ResourceHeader.Version = c.ResourceHeader.Version ∧
      c1.ResourceHeader.Kind = c.ResourceHeader.Kind ∧
      c1.IsSuccess = c.IsSuccess ∧
      c1.GetMessage = c.GetMessage := by
  cases hl : c.ResourceHeader.Metadata.Labels with
  | nil => exact absurd hl h
  | alloc sm =>
    refine ⟨_, SetOrigin_of_alloc c sm o hl, ?_, rfl, rfl, rfl, rfl, rfl⟩
    intro k hk
    simp only [ConnectionDiagnosticV1.GetStaticLabels, hl, GoMap.lookup]
    exact StringMap.lookup_store_ne sm OriginLabel o k hk

/-- Witness of C17: the running example, whose label `"env"` stays `"prod"`. -/
theorem setOrigin_frame_witness :
    diag1.GetStaticLabels ≠ GoMap.nil ∧
    ∃ c1, diag1.SetOrigin "cloud" = some c1 ∧
      (∀ k, k ≠ OriginLabel → c1.GetStaticLabels.lookup k = diag1.GetStaticLabels.lookup k) ∧
      c1.GetName = diag1.GetName ∧
      c1.ResourceHeader.Version = diag1.ResourceHeader.Version ∧
      c1.ResourceHeader.Kind = diag1.ResourceHeader.Kind ∧
      c1.IsSuccess = diag1.IsSuccess ∧
      c1.GetMessage = diag1.GetMessage :=
  ⟨by simp [diag1, envProd, ConnectionDiagnosticV1.GetStaticLabels],
    setOrigin_frame diag1 "cloud"
      (by simp [diag1, envProd, ConnectionDiagnosticV1.GetStaticLabels])⟩

/-- C18: the origin is visible to search: on a resource whose label mapping exists, after
`SetOrigin x` the call `MatchSearch [x]` returns true, whatever the case table, the origin
being a label value that `GetAllLabels` returns. -/
theorem origin_searchable (lower : Char → Char) (c : ConnectionDiagnosticV1) (x : String)
    (h : c.GetStaticLabels ≠ GoMap.nil) :
    ∃ c1, c.SetOrigin x = some c1 ∧ c1.GetAllLabels.lookup OriginLabel = some x ∧
      c1.MatchSearch lower [x] = true := by
  cases hl : c.ResourceHeader.Metadata.Labels with
  | nil => exact absurd hl h
  | alloc sm =>
    have hlk : ∀ c1 : ConnectionDiagnosticV1,
        c1.ResourceHeader.Metadata.Labels = GoMap.alloc (sm.store OriginLabel x) →
        c1.GetAllLabels.lookup OriginLabel = some x := by
      intro c1 h1
      show (CombineLabels c1.ResourceHeader.Metadata.Labels GoMap.nil).lookup OriginLabel = _
      rw [lookup_CombineLabels_nil, h1]
      exact StringMap.lookup_store_self sm OriginLabel x
    refine ⟨_, SetOrigin_of_alloc c sm x hl, hlk _ rfl, ?_⟩
    unfold ConnectionDiagnosticV1.MatchSearch
    rw [MatchSearch_none_iff]
    intro t ht
    rw [List.mem_singleton] at ht
    subst ht
    exact ⟨t, List.mem_append.2 (Or.inl ((mem_MapToStrings_iff _ t).2
      ⟨OriginLabel, hlk _ rfl⟩)), containsFold_self lower t⟩

/-- Witness of C18: the running example with the origin `"cloud"`. -/
theorem origin_searchable_witness :
    diag1.GetStaticLabels ≠ GoMap.nil ∧
    ∃ c1, diag1.SetOrigin "cloud" = some c1 ∧
      c1.GetAllLabels.lookup OriginLabel = some "cloud" ∧
      c1.MatchSearch Char.toLower ["cloud"] = true :=
  ⟨by simp [diag1, envProd, ConnectionDiagnosticV1.GetStaticLabels],
    origin_searchable Char.toLower diag1 "cloud"
      (by simp [diag1, envProd, ConnectionDiagnosticV1.GetStaticLabels])⟩

end Teleport

